import Mathlib

/-!
Verification development for the `mbtalerts` repository (Rust).

The embedding models the two core components of the repository:
the summary-generation pipeline (`src/calendar.rs`: `strip_line_prefix`,
`brief_content`, `location_phrase`, `effect_label`, `event_summary`,
`next_date`, `event_times`, `event_body`, and `line_name` from
`src/lib.rs`) and the reconciliation engine (`sync_alerts` in
`src/calendar.rs`).

String representation: a Rust `&str` is modelled as a `List Char`
(its sequence of Unicode scalar values), which is exact because a Rust
`&str` is always valid UTF-8.  Rust's `str::find` returns a *byte*
index; in the embedding `rfind` returns the *character* index of the
first occurrence, and byte indices are recovered with `byteLen`
(UTF-8 encoded length).  The two views agree: the byte index of a
character position is strictly monotone in the position, so first
occurrences and minima of occurrence positions coincide in either
unit.  The one place in the source that manipulates a *raw* byte
index (the constant-30 slice in `brief_content`, and the `get(..10)`
slice in `event_times`) is modelled explicitly through `charAtByte`,
including the panic when the byte index falls inside a multi-byte
character (`Option.none` models a Rust panic).
-/

/-- A Rust `&str` / `String`, as its list of Unicode scalar values. -/
abbrev RStr := List Char

/-- UTF-8 encoded length of one character (Rust `char::len_utf8`). -/
def utf8Len (c : Char) : Nat :=
  if c.toNat < 0x80 then 1
  else if c.toNat < 0x800 then 2
  else if c.toNat < 0x10000 then 3
  else 4

/-- Byte length of a string (Rust `str::len`). -/
def byteLen (s : RStr) : Nat := (s.map utf8Len).sum

/-- `charAtByte s n = some k` when byte index `n` is a char boundary of `s`,
with `k` the corresponding character index; `none` when `n` falls inside a
multi-byte character or past the end (where Rust byte-slicing would panic or
`str::get` would return `None`). -/
def charAtByte : RStr → Nat → Option Nat
  | _, 0 => some 0
  | [], _ + 1 => none
  | c :: rest, n + 1 =>
    if utf8Len c ≤ n + 1 then (charAtByte rest (n + 1 - utf8Len c)).map (· + 1)
    else none

/-- `pat` occurs in `s` at character position `i`. -/
def occursAt (pat s : RStr) (i : Nat) : Prop := pat <+: s.drop i

instance (pat s : RStr) (i : Nat) : Decidable (occursAt pat s i) := by
  unfold occursAt; infer_instance

/-- Rust `str::find(pat)`: character index of the first occurrence of `pat`. -/
def rfind (pat : RStr) : RStr → Option Nat
  | [] => if pat = [] then some 0 else none
  | c :: s => if pat.isPrefixOf (c :: s) then some 0 else (rfind pat s).map (· + 1)

/-- Rust `str::contains(pat)`. -/
def rcontains (pat s : RStr) : Bool := (rfind pat s).isSome

/-- The Unicode `White_Space` property (Rust `char::is_whitespace`). -/
def rustIsWhitespace (c : Char) : Bool :=
  (0x09 ≤ c.toNat ∧ c.toNat ≤ 0x0D) ∨ c.toNat = 0x20 ∨ c.toNat = 0x85 ∨
    c.toNat = 0xA0 ∨ c.toNat = 0x1680 ∨
    (0x2000 ≤ c.toNat ∧ c.toNat ≤ 0x200A) ∨ c.toNat = 0x2028 ∨
    c.toNat = 0x2029 ∨ c.toNat = 0x202F ∨ c.toNat = 0x205F ∨ c.toNat = 0x3000

/-- Rust `str::trim_start`. -/
def trimStart (s : RStr) : RStr := s.dropWhile rustIsWhitespace

/-- Rust `str::trim_end_matches(['.', ',', ' '])` as used by the pipeline. -/
def trimEndPunct (s : RStr) : RStr :=
  (s.reverse.dropWhile (fun c => c = '.' ∨ c = ',' ∨ c = ' ')).reverse

/-- Rust iterator `min()` over a list of byte/char indices. -/
def iterMin : List Nat → Option Nat
  | [] => none
  | x :: xs =>
    match iterMin xs with
    | none => some x
    | some y => some (min x y)

/-! ## The alert model (`src/types.rs`) -/

/-- `ActivePeriod` from `src/types.rs` (`end` is a Lean keyword, renamed
to `stop`). -/
structure ActivePeriod where
  start : Option RStr
  stop : Option RStr
deriving DecidableEq, Repr

/-- `InformedEntity` from `src/types.rs`. -/
structure InformedEntity where
  route : Option RStr
deriving DecidableEq, Repr

/-- `AlertAttributes` from `src/types.rs`. -/
structure AlertAttributes where
  header : RStr
  description : Option RStr
  url : Option RStr
  active_period : List ActivePeriod
  effect : RStr
  informed_entity : List InformedEntity
deriving DecidableEq, Repr

/-- `Alert` from `src/types.rs`. -/
structure Alert where
  id : RStr
  attributes : AlertAttributes
deriving DecidableEq, Repr

/-! ## The summary pipeline (`src/calendar.rs`, `src/lib.rs`) -/

/-- Helper for `line_name`: the source iterates `informed_entity` and
returns on the first entity whose `route` is present. -/
def lineNameGo : List InformedEntity → RStr
  | [] => "MBTA".toList
  | e :: rest =>
    match e.route with
    | some r =>
      if r = "Red".toList then "Red Line".toList
      else if r = "Orange".toList then "Orange Line".toList
      else if ("Green".toList).isPrefixOf r then "Green Line".toList
      else "MBTA".toList
    | none => lineNameGo rest

/-- `line_name` from `src/lib.rs`. -/
def line_name (a : Alert) : RStr := lineNameGo a.attributes.informed_entity

/-- `strip_line_prefix` from `src/calendar.rs` (named without the final
source word for lexical reasons): drop a leading line-name label
`"... Line: "` when the part before the first `": "` contains `"Line"`
and is at most 35 bytes long; otherwise only trim leading whitespace.
`rfind` gives the character index of the first `": "`, which equals the
source's byte index `colon_idx` in char units; `byteLen` recovers the
source's `prefix.len()` byte count. -/
def strip_line_pre (header : RStr) : RStr :=
  match rfind (": ".toList) header with
  | some i =>
    if rcontains ("Line".toList) (header.take i) ∧ byteLen (header.take i) ≤ 35 then
      trimStart (header.drop (i + 2))
    else trimStart header
  | none => trimStart header

/-- `brief_content` from `src/calendar.rs`.  Truncate at the boilerplate
phrases `" to allow"` / `" in order to"` and at the first `", "` at or
after byte 30.  The source's `end` variable is a byte index; here `e2`
is the same position in char units and `endB` its byte value.  The
source slices `content[scan_from..end]` with `scan_from = 30.min(end)`:
when byte 30 is not a char boundary this slice panics, modelled by
`none`. -/
def brief_content (content : RStr) : Option RStr :=
  let e1 := match rfind (" to allow".toList) content with
    | some i => min content.length i
    | none => content.length
  let e2 := match rfind (" in order to".toList) content with
    | some i => min e1 i
    | none => e1
  let endB := byteLen (content.take e2)
  if endB ≤ 30 then some (trimEndPunct (content.take e2))
  else
    match charAtByte content 30 with
    | none => none
    | some k =>
      match rfind (", ".toList) ((content.take e2).drop k) with
      | some r => some (trimEndPunct (content.take (k + r)))
      | none => some (trimEndPunct (content.take e2))

/-- `LOCATION_STOP_MARKERS` from `src/calendar.rs`. -/
def LOCATION_STOP_MARKERS : List RStr :=
  [", ".toList, " will ".toList, " this ".toList, " that ".toList,
    " from ".toList, " to allow".toList, " in order".toList,
    " starting".toList, " during".toList]

/-- The truncate-and-trim tail of `location_phrase` (`src/calendar.rs`
lines 286-297): truncate the fragment at the earliest stop marker, trim
trailing `.`/`,`/space, and report an empty result as no phrase. -/
def locationClip (fragment : RStr) : Option RStr :=
  let e := (iterMin (LOCATION_STOP_MARKERS.filterMap (fun mk => rfind mk fragment))).getD
    fragment.length
  let phrase := trimEndPunct (fragment.take e)
  if phrase = [] then none else some phrase

/-- `location_phrase` from `src/calendar.rs`: extract `"between A and B"`
or `"from A through B"` from stripped content, truncated at the earliest
stop marker, with trailing `.`/`,`/space trimmed; an empty result is no
phrase.  The source's `fragment.find(m)` minimum is over byte indices;
`iterMin` over char indices picks the same occurrence (byte position is
strictly monotone in char position). -/
def location_phrase (content : RStr) : Option RStr :=
  match rfind (" between ".toList) content with
  | some i => locationClip (content.drop (i + 1))
  | none =>
    match rfind (" from ".toList) content with
    | some i =>
      if rcontains (" through ".toList) (content.drop (i + 1)) then
        locationClip (content.drop (i + 1))
      else none
    | none => none

/-- `effect_label` from `src/calendar.rs`. -/
def effect_label (effect : RStr) : RStr :=
  if effect = "SHUTTLE".toList then "Shuttle".toList
  else if effect = "DELAY".toList then "Delay".toList
  else if effect = "SUSPENSION".toList then "Suspension".toList
  else if effect = "SERVICE_CHANGE".toList then "Service change".toList
  else if effect = "SCHEDULE_CHANGE".toList then "Schedule change".toList
  else if effect = "DETOUR".toList then "Detour".toList
  else effect

/-- `event_summary` from `src/calendar.rs`; `none` models a panic
propagating out of `brief_content`. -/
def event_summary (a : Alert) : Option RStr :=
  let line := line_name a
  let content := strip_line_pre a.attributes.header
  match location_phrase content with
  | some loc =>
    some ("[".toList ++ line ++ "] ".toList ++
      effect_label a.attributes.effect ++ " ".toList ++ loc)
  | none =>
    (brief_content content).map (fun b => "[".toList ++ line ++ "] ".toList ++ b)

example : strip_line_pre ("Red Line: Shuttle".toList) = "Shuttle".toList := by decide
example : strip_line_pre ("Attention Passengers: x".toList) =
    "Attention Passengers: x".toList := by decide
example : location_phrase
    ("Shuttle buses will replace service between Broadway and Ashmont this weekend.".toList) =
    some ("between Broadway and Ashmont".toList) := by decide
example : location_phrase
    ("Shuttle buses replace service from North Station to Anderson/Woburn.".toList) =
    none := by decide

/-! ## Dates and the event time window (`src/calendar.rs`) -/

/-- Gregorian leap year (chrono's calendar). -/
def isLeap (y : Nat) : Bool := (y % 4 = 0 ∧ y % 100 ≠ 0) ∨ y % 400 = 0

/-- Days in a month of the proleptic Gregorian calendar. -/
def daysInMonth (y m : Nat) : Nat :=
  if m = 2 then (if isLeap y then 29 else 28)
  else if m = 4 ∨ m = 6 ∨ m = 9 ∨ m = 11 then 30
  else 31

/-- The calendar day after `(y, m, d)` (chrono `d + Duration::days(1)`). -/
def nextDay : Nat × Nat × Nat → Nat × Nat × Nat
  | (y, m, d) =>
    if d < daysInMonth y m then (y, m, d + 1)
    else if m < 12 then (y, m + 1, 1)
    else (y + 1, 1, 1)

/-- Digit character to value. -/
def digitVal (c : Char) : Option Nat :=
  if '0' ≤ c ∧ c ≤ '9' then some (c.toNat - 48) else none

/-- Split a leading run of digits off a string. -/
def takeDigits : RStr → List Nat × RStr
  | [] => ([], [])
  | c :: rest =>
    match digitVal c with
    | some d => (d :: (takeDigits rest).1, (takeDigits rest).2)
    | none => ([], c :: rest)

/-- Value of a digit run. -/
def digitsToNat (ds : List Nat) : Nat := ds.foldl (fun a d => a * 10 + d) 0

/-- Modelled external collaborator: chrono
`NaiveDate::parse_from_str(date, "%Y-%m-%d")`, restricted to the
non-negative four-digit years this program handles: a 4-digit year,
`-`, a 1-2 digit month, `-`, a 1-2 digit day, nothing trailing, and the
triple must be a real calendar date. -/
def parseDate (s : RStr) : Option (Nat × Nat × Nat) :=
  let (yds, r1) := takeDigits s
  if yds.length = 4 then
    match r1 with
    | '-' :: r2 =>
      let (mds, r3) := takeDigits r2
      if mds.length = 1 ∨ mds.length = 2 then
        match r3 with
        | '-' :: r4 =>
          let (dds, r5) := takeDigits r4
          if (dds.length = 1 ∨ dds.length = 2) ∧ r5 = [] then
            let y := digitsToNat yds
            let m := digitsToNat mds
            let d := digitsToNat dds
            if 1 ≤ m ∧ m ≤ 12 ∧ 1 ≤ d ∧ d ≤ daysInMonth y m then some (y, m, d)
            else none
          else none
        | _ => none
      else none
    | _ => none
  else none

/-- Decimal digits of `n` (kernel-friendly). -/
def natChars (n : Nat) : List Char :=
  (Nat.toDigits 10 n)

/-- Zero-pad a numeral to width `w` (chrono `%Y` / `%m` / `%d` output). -/
def padNum (w n : Nat) : RStr :=
  List.replicate (w - (natChars n).length) '0' ++ natChars n

/-- Modelled external collaborator: chrono `format("%Y-%m-%d")` for
non-negative years below 10000. -/
def formatDate : Nat × Nat × Nat → RStr
  | (y, m, d) => padNum 4 y ++ "-".toList ++ padNum 2 m ++ "-".toList ++ padNum 2 d

/-- `next_date` from `src/calendar.rs`: parse `%Y-%m-%d`, add one day and
re-format; an unparseable string passes through unchanged
(`unwrap_or_else`). -/
def next_date (date : RStr) : RStr :=
  match parseDate date with
  | some ymd => formatDate (nextDay ymd)
  | none => date

/-- One of the two JSON time values built by `event_times`
(`json!({"dateTime": s})` or `json!({"date": s})`). -/
inductive TimeJson where
  | dateTime (s : RStr)
  | date (s : RStr)
deriving DecidableEq, Repr

/-- The source's `s.get(..10).unwrap_or(s)`: the first 10 bytes when byte
10 is a char boundary, otherwise (`get` returns `None`) the whole
string. -/
def takeBytes10 (s : RStr) : RStr :=
  match charAtByte s 10 with
  | some k => s.take k
  | none => s

/-- `event_times` from `src/calendar.rs`.  `today` stands for the wall
clock `chrono::Utc::now().format("%Y-%m-%d")`, passed as a parameter. -/
def event_times (today : RStr) : Option RStr → Option RStr → TimeJson × TimeJson
  | some s, some e => (TimeJson.dateTime s, TimeJson.dateTime e)
  | some s, none =>
    (TimeJson.date (takeBytes10 s), TimeJson.date (next_date (takeBytes10 s)))
  | none, _ => (TimeJson.date today, TimeJson.date (next_date today))

/-- The time window `event_body` computes (`src/calendar.rs` lines
328-332): only the first active period is consulted. -/
def event_body_times (today : RStr) (a : Alert) : TimeJson × TimeJson :=
  let period := a.attributes.active_period.head?
  event_times today (period.bind (·.start)) (period.bind (·.stop))

/-- The calendar-event payload built by `event_body` in
`src/calendar.rs` (the `json!` object, as a record). -/
structure EventBody where
  summary : RStr
  description : Option RStr
  start : TimeJson
  stop : TimeJson
  mbta_alert_id : RStr
deriving DecidableEq, Repr

/-- `event_body` from `src/calendar.rs`; `none` models the panic
propagating out of `event_summary`. -/
def event_body (today : RStr) (a : Alert) : Option EventBody :=
  (event_summary a).map (fun s =>
    { summary := s
      description := a.attributes.description
      start := (event_body_times today a).1
      stop := (event_body_times today a).2
      mbta_alert_id := a.id })

example : next_date ("2024-03-15".toList) = "2024-03-16".toList := by decide
example : next_date ("2024-01-31".toList) = "2024-02-01".toList := by decide
example : next_date ("not-a-date".toList) = "not-a-date".toList := by decide
example : takeBytes10 ("2024-01-15T10:00:00-05:00".toList) = "2024-01-15".toList := by decide

/-! ## The reconciler (`sync_alerts` in `src/calendar.rs`)

`sync_alerts` lists the remote events, builds the `alert_id → event_id`
map, walks the live alerts issuing update/create calls and recording
seen ids, then deletes the events of unseen ids.  The embedding splits
this into a pure plan, `sync_alerts : List Alert → List CalendarEvent →
List CalOp` (faithful because the first loop never reads `seen` and the
map is fixed), an executor `runOps` modelling the sequential `await?`
calls (the first failing call aborts the run), and a remote-state
transformer `applyOps` modelling the effect of the calls on the
calendar (the server picks fresh event ids, modelled by a generator
`gen : Nat → RStr`).  `HashMap` is modelled as an association list with
insert-overwrite; `HashSet` as a list queried for membership.  The
`HashMap` iteration order of the delete loop is unspecified in Rust;
the model iterates in key-insertion order, and no claim below depends
on the order of the delete calls. -/

/-- `ExtendedProperties` from `src/calendar.rs` (the `private` field is
a Lean keyword, renamed to `priv_props`). -/
structure ExtendedProperties where
  priv_props : Option (List (RStr × RStr))
deriving DecidableEq, Repr

/-- `CalendarEvent` from `src/calendar.rs`. -/
structure CalendarEvent where
  id : RStr
  extended_properties : Option ExtendedProperties
deriving DecidableEq, Repr

/-- Association-list lookup (`HashMap::get`). -/
def lookupAssoc (m : List (RStr × RStr)) (k : RStr) : Option RStr :=
  match m with
  | [] => none
  | (k', v) :: rest => if k' = k then some v else lookupAssoc rest k

/-- Association-list insert with overwrite (`HashMap::insert`). -/
def insertAssoc (m : List (RStr × RStr)) (k v : RStr) : List (RStr × RStr) :=
  match m with
  | [] => [(k, v)]
  | (k', v') :: rest =>
    if k' = k then (k, v) :: rest else (k', v') :: insertAssoc rest k v

/-- `CalendarEvent::alert_id` from `src/calendar.rs`: the value of the
`mbta_alert_id` key of the private extended properties, when present. -/
def CalendarEvent.alert_id (e : CalendarEvent) : Option RStr :=
  (e.extended_properties.bind (·.priv_props)).bind
    (fun ps => lookupAssoc ps ("mbta_alert_id".toList))

/-- `STATION_EFFECTS_TO_SKIP` from `src/calendar.rs`. -/
def STATION_EFFECTS_TO_SKIP : List RStr :=
  ["STATION_ISSUE".toList, "STOP_CLOSURE".toList, "STATION_CLOSURE".toList]

/-- The skip test of the alert loop
(`STATION_EFFECTS_TO_SKIP.contains(&alert.attributes.effect.as_str())`). -/
def skipEffect (effect : RStr) : Bool :=
  STATION_EFFECTS_TO_SKIP.contains effect

/-- One calendar API call issued by `sync_alerts`: `create_event(alert)`,
`update_event(event_id, alert)` or `delete_event(event_id)`.  The payload
of a create/update is `event_body` of the carried alert. -/
inductive CalOp where
  | create (a : Alert)
  | update (eventId : RStr) (a : Alert)
  | delete (eventId : RStr)
deriving DecidableEq, Repr

/-- The `existing_by_alert_id` map of `sync_alerts`: fold the remote
events in order, inserting `alert_id → event.id` for each tagged event
(later events overwrite earlier ones, as `HashMap::insert` does). -/
def buildMap (events : List CalendarEvent) : List (RStr × RStr) :=
  events.foldl
    (fun m e =>
      match e.alert_id with
      | some aid => insertAssoc m aid e.id
      | none => m)
    []

/-- The create/update calls of the alert loop of `sync_alerts`, in feed
order: skip-listed effects issue nothing, mapped ids issue an update,
unmapped ids issue a create. -/
def loopOps (m : List (RStr × RStr)) : List Alert → List CalOp
  | [] => []
  | a :: rest =>
    if skipEffect a.attributes.effect then loopOps m rest
    else
      match lookupAssoc m a.id with
      | some eid => CalOp.update eid a :: loopOps m rest
      | none => CalOp.create a :: loopOps m rest

/-- The `seen` set at the end of the alert loop of `sync_alerts`: the ids
of the non-skipped live alerts (inserted whether the alert was updated
or created). -/
def seenIds (alerts : List Alert) : List RStr :=
  alerts.filterMap (fun a =>
    if skipEffect a.attributes.effect then none else some a.id)

/-- The full call plan of `sync_alerts` from `src/calendar.rs`: the
alert-loop calls followed by a delete for every mapped alert id that was
not seen.  The source's `filter`-then-`delete_event` loop over the map
is written as one `filterMap`. -/
def sync_alerts (alerts : List Alert) (existing : List CalendarEvent) : List CalOp :=
  let m := buildMap existing
  loopOps m alerts ++
    m.filterMap (fun p =>
      if p.1 ∈ seenIds alerts then none else some (CalOp.delete p.2))

/-- Sequential execution of the calls with the source's `?` propagation:
`fails` says which calls fail; the result is the list of calls that
actually executed (in order) and whether the whole run succeeded.  The
first failing call stops the run; calls already made stay made. -/
def runOps (fails : CalOp → Bool) : List CalOp → List CalOp × Bool
  | [] => ([], true)
  | op :: rest =>
    if fails op then ([], false)
    else
      let r := runOps fails rest
      (op :: r.1, r.2)

/-- The remote event written by a create or update call: the
`event_body` payload tags the event with `mbta_alert_source = "true"`
and `mbta_alert_id = alert.id` in its private extended properties. -/
def mkEvent (eid aid : RStr) : CalendarEvent :=
  { id := eid
    extended_properties := some
      { priv_props := some
          [("mbta_alert_source".toList, "true".toList), ("mbta_alert_id".toList, aid)] } }

/-- Effect of one call on the remote calendar: a create appends a new
event under a server-chosen fresh id `gen n` (with `n` the count of
creates so far), an update replaces the event(s) with the given id by
the new payload, a delete removes the event(s) with the given id. -/
def applyOp (gen : Nat → RStr) :
    List CalendarEvent × Nat → CalOp → List CalendarEvent × Nat
  | (st, n), CalOp.create a => (st ++ [mkEvent (gen n) a.id], n + 1)
  | (st, n), CalOp.update eid a =>
    (st.map (fun e => if e.id = eid then mkEvent eid a.id else e), n)
  | (st, n), CalOp.delete eid => (st.filter (fun e => ¬e.id = eid), n)

/-- Effect of a call sequence on the remote calendar. -/
def applyOps (gen : Nat → RStr) (p : List CalendarEvent × Nat) (ops : List CalOp) :
    List CalendarEvent × Nat :=
  ops.foldl (applyOp gen) p

/-- The alert ids of the tagged events of a remote state, one entry per
tagged event. -/
def taggedIds (st : List CalendarEvent) : List RStr :=
  st.filterMap CalendarEvent.alert_id

/-- Number of create calls in a plan. -/
def countCreates (ops : List CalOp) : Nat :=
  ops.countP (fun op => match op with | CalOp.create _ => true | _ => false)

/-- Number of update calls in a plan. -/
def countUpdates (ops : List CalOp) : Nat :=
  ops.countP (fun op => match op with | CalOp.update _ _ => true | _ => false)

/-- Number of delete calls in a plan. -/
def countDeletes (ops : List CalOp) : Nat :=
  ops.countP (fun op => match op with | CalOp.delete _ => true | _ => false)

/-! ## Lemmas: first-occurrence semantics of `rfind` -/

/-- `pat` occurs at the first position iff it is a prefix. -/
theorem occursAt_zero (pat s : RStr) : occursAt pat s 0 ↔ pat <+: s := by
  simp [occursAt]

/-- Shifting an occurrence across a cons cell. -/
theorem occursAt_cons_succ (pat : RStr) (c : Char) (s : RStr) (j : Nat) :
    occursAt pat (c :: s) (j + 1) ↔ occursAt pat s j := by
  simp [occursAt]

/-- `i` is the first occurrence of `pat` in `s`. -/
def firstOccur (pat s : RStr) (i : Nat) : Prop :=
  occursAt pat s i ∧ ∀ j < i, ¬occursAt pat s j

instance (pat s : RStr) (i : Nat) : Decidable (firstOccur pat s i) := by
  unfold firstOccur; infer_instance

/-- A successful `rfind` is a first occurrence. -/
theorem rfind_some (pat : RStr) :
    ∀ (s : RStr) (i : Nat), rfind pat s = some i → firstOccur pat s i := by
  intro s
  induction s with
  | nil =>
    intro i h
    by_cases hp : pat = ([] : RStr)
    · subst hp
      simp [rfind] at h
      subst h
      exact ⟨by simp [occursAt], by intro j hj; omega⟩
    · simp [rfind, hp] at h
  | cons c s ih =>
    intro i h
    unfold rfind at h
    by_cases hp : pat.isPrefixOf (c :: s)
    · simp only [if_pos hp, Option.some.injEq] at h
      subst h
      refine ⟨(occursAt_zero pat (c :: s)).mpr (List.isPrefixOf_iff_prefix.mp hp), ?_⟩
      intro j hj; omega
    · simp only [if_neg hp, Option.map_eq_some'] at h
      obtain ⟨i', hi', rfl⟩ := h
      obtain ⟨h1, h2⟩ := ih i' hi'
      refine ⟨(occursAt_cons_succ pat c s i').mpr h1, ?_⟩
      intro j hj
      cases j with
      | zero =>
        rw [occursAt_zero]
        intro hpre
        exact hp (List.isPrefixOf_iff_prefix.mpr hpre)
      | succ j' =>
        rw [occursAt_cons_succ]
        exact h2 j' (by omega)

/-- Any occurrence is at or after the `rfind` position. -/
theorem occursAt_rfind_le (pat : RStr) :
    ∀ (s : RStr) (j : Nat), occursAt pat s j → ∃ i, rfind pat s = some i ∧ i ≤ j := by
  intro s
  induction s with
  | nil =>
    intro j h
    have hp : pat = ([] : RStr) := by
      have := h
      unfold occursAt at this
      simpa using List.prefix_nil.mp (by simpa using this)
    exact ⟨0, by simp [rfind, hp], Nat.zero_le j⟩
  | cons c s ih =>
    intro j h
    by_cases hp : pat.isPrefixOf (c :: s)
    · exact ⟨0, by simp [rfind, hp], Nat.zero_le j⟩
    · cases j with
      | zero =>
        rw [occursAt_zero] at h
        exact absurd (List.isPrefixOf_iff_prefix.mpr h) hp
      | succ j' =>
        rw [occursAt_cons_succ] at h
        obtain ⟨i', hi', hle⟩ := ih j' h
        exact ⟨i' + 1, by simp [rfind, hp, hi'], by omega⟩

/-- `rfind` fails exactly when the pattern never occurs. -/
theorem rfind_none_iff (pat s : RStr) :
    rfind pat s = none ↔ ∀ i, ¬occursAt pat s i := by
  constructor
  · intro h i hocc
    obtain ⟨i', hi', _⟩ := occursAt_rfind_le pat s i hocc
    rw [h] at hi'
    exact Option.noConfusion hi'
  · intro h
    cases hf : rfind pat s with
    | none => rfl
    | some i => exact absurd (rfind_some pat s i hf).1 (h i)

/-- `rfind` computes exactly the first occurrence. -/
theorem rfind_eq_some_iff (pat s : RStr) (i : Nat) :
    rfind pat s = some i ↔ firstOccur pat s i := by
  constructor
  · exact rfind_some pat s i
  · rintro ⟨hocc, hmin⟩
    obtain ⟨i', hi', hle⟩ := occursAt_rfind_le pat s i hocc
    obtain ⟨hocc', hmin'⟩ := rfind_some pat s i' hi'
    rcases Nat.lt_trichotomy i' i with h | h | h
    · exact absurd hocc' (hmin i' h)
    · rwa [h] at hi'
    · omega

/-- First occurrences are unique. -/
theorem firstOccur_unique {pat s : RStr} {i j : Nat}
    (hi : firstOccur pat s i) (hj : firstOccur pat s j) : i = j := by
  rcases Nat.lt_trichotomy i j with h | h | h
  · exact absurd hi.1 (hj.2 i h)
  · exact h
  · exact absurd hj.1 (hi.2 j h)

/-- `rcontains` decides existence of an occurrence. -/
theorem rcontains_iff (pat s : RStr) :
    rcontains pat s = true ↔ ∃ i, occursAt pat s i := by
  unfold rcontains
  constructor
  · intro h
    cases hf : rfind pat s with
    | none => rw [hf] at h; simp at h
    | some i => exact ⟨i, (rfind_some pat s i hf).1⟩
  · rintro ⟨i, hocc⟩
    obtain ⟨i', hi', _⟩ := occursAt_rfind_le pat s i hocc
    rw [hi']
    rfl

/-! ## Lemmas: `iterMin` -/

/-- `iterMin` fails only on the empty list. -/
theorem iterMin_eq_none_iff (l : List Nat) : iterMin l = none ↔ l = [] := by
  cases l with
  | nil => simp [iterMin]
  | cons x xs =>
    simp only [iterMin]
    cases iterMin xs <;> simp

/-- The minimum is an element. -/
theorem iterMin_mem : ∀ (l : List Nat) (x : Nat), iterMin l = some x → x ∈ l := by
  intro l
  induction l with
  | nil => intro x h; simp [iterMin] at h
  | cons a xs ih =>
    intro x h
    simp only [iterMin] at h
    cases hx : iterMin xs with
    | none =>
      rw [hx] at h
      simp only [Option.some.injEq] at h
      simp [← h]
    | some y =>
      rw [hx] at h
      simp only [Option.some.injEq] at h
      subst h
      rcases Nat.le_total a y with hle | hle
      · rw [Nat.min_eq_left hle]; exact List.mem_cons_self a xs
      · rw [Nat.min_eq_right hle]; exact List.mem_cons_of_mem a (ih y hx)

/-- The minimum is a lower bound. -/
theorem iterMin_le : ∀ (l : List Nat) (x : Nat), iterMin l = some x →
    ∀ y ∈ l, x ≤ y := by
  intro l
  induction l with
  | nil => intro x h; simp [iterMin] at h
  | cons a xs ih =>
    intro x h y hy
    simp only [iterMin] at h
    cases hx : iterMin xs with
    | none =>
      rw [hx] at h
      simp only [Option.some.injEq] at h
      subst h
      rcases List.mem_cons.mp hy with rfl | hy' <;>
        simp_all [iterMin_eq_none_iff]
    | some z =>
      rw [hx] at h
      simp only [Option.some.injEq] at h
      subst h
      rcases List.mem_cons.mp hy with h' | hy'
      · rw [h']; exact Nat.min_le_left a z
      · exact Nat.le_trans (Nat.min_le_right a z) (ih z hx y hy')

/-! ## Claim C7: line-prefix stripping -/

/-- C7 counterexample: the claim predicates stripping on the header
containing a *colon* whose preceding substring contains `"Line"` and is
short enough, but the source only matches a colon *followed by a space*
(`header.find(": ")`).  `"Short Line:x"` decomposes as
`"Short Line" ++ ":" ++ "x"`, the part before the colon contains
`"Line"` and has 10 ≤ 35 characters, yet `strip_line_prefix` leaves the
header untouched instead of stripping to `"x"`. -/
theorem strip_line_colon_counterexample :
    "Short Line:x".toList = "Short Line".toList ++ [':'] ++ "x".toList ∧
    rcontains ("Line".toList) ("Short Line".toList) = true ∧
    ("Short Line".toList).length ≤ 35 ∧
    byteLen ("Short Line".toList) ≤ 35 ∧
    strip_line_pre ("Short Line:x".toList) = "Short Line:x".toList ∧
    strip_line_pre ("Short Line:x".toList) ≠ "x".toList := by
  refine ⟨by decide, by decide, by decide, by decide, by decide, by decide⟩

/-- C7 (amended): a prefix is stripped iff the header contains a colon
*immediately followed by a space*, and the substring before the first
such `": "` contains `"Line"` and is at most 35 bytes long (for ASCII
headers, 35 characters); when stripped, the prefix, the `": "`, and any
following whitespace are dropped; otherwise the header is returned with
only leading whitespace trimmed. -/
theorem strip_line_spec (h : RStr) :
    (∀ i, firstOccur (": ".toList) h i →
      ((rcontains ("Line".toList) (h.take i) ∧ byteLen (h.take i) ≤ 35) →
        strip_line_pre h = trimStart (h.drop (i + 2))) ∧
      (¬(rcontains ("Line".toList) (h.take i) ∧ byteLen (h.take i) ≤ 35) →
        strip_line_pre h = trimStart h)) ∧
    ((∀ i, ¬occursAt (": ".toList) h i) → strip_line_pre h = trimStart h) := by
  constructor
  · intro i hfirst
    have hf : rfind (": ".toList) h = some i := (rfind_eq_some_iff _ h i).mpr hfirst
    constructor
    · intro hcond
      unfold strip_line_pre
      rw [hf]
      exact if_pos hcond
    · intro hcond
      unfold strip_line_pre
      rw [hf]
      exact if_neg hcond
  · intro hnone
    have hf : rfind (": ".toList) h = none := (rfind_none_iff _ h).mpr hnone
    unfold strip_line_pre
    rw [hf]

/-- Witness for `strip_line_spec`: both branches at concrete headers
(`"Red Line: stuff"` strips at the first `": "` (position 8);
`"Attention Passengers: x"` has its first `": "` at position 20 but the
prefix lacks `"Line"`, so only leading whitespace is trimmed). -/
theorem strip_line_spec_witness :
    strip_line_pre ("Red Line: stuff".toList) =
      trimStart (("Red Line: stuff".toList).drop 10) ∧
    strip_line_pre ("Attention Passengers: x".toList) =
      trimStart ("Attention Passengers: x".toList) := by
  refine ⟨((strip_line_spec ("Red Line: stuff".toList)).1 8 (by decide)).1 (by decide),
    ((strip_line_spec ("Attention Passengers: x".toList)).1 20 (by decide)).2 (by decide)⟩

/-! ## Claim C8: location-phrase extraction -/

/-- Some stop marker occurs in `frag` at position `j`. -/
def markerAt (frag : RStr) (j : Nat) : Prop :=
  ∃ mk ∈ LOCATION_STOP_MARKERS, occursAt mk frag j

instance (frag : RStr) (j : Nat) : Decidable (markerAt frag j) := by
  unfold markerAt; infer_instance

/-- The clip step truncates at the *earliest* stop-marker occurrence
(or at the end when no marker occurs), trims trailing `.`/`,`/space,
and reports an empty remainder as no phrase. -/
theorem locationClip_spec (frag : RStr) :
    ∃ e, e ≤ frag.length ∧ (∀ j < e, ¬markerAt frag j) ∧
      (markerAt frag e ∨ e = frag.length) ∧
      locationClip frag =
        (if trimEndPunct (frag.take e) = [] then none
         else some (trimEndPunct (frag.take e))) := by
  cases hL : iterMin (LOCATION_STOP_MARKERS.filterMap (fun mk => rfind mk frag)) with
  | none =>
    refine ⟨frag.length, Nat.le_refl _, ?_, Or.inr rfl, ?_⟩
    · intro j _ hmk
      obtain ⟨mk, hmem, hocc⟩ := hmk
      obtain ⟨i, hi, _⟩ := occursAt_rfind_le mk frag j hocc
      have : i ∈ LOCATION_STOP_MARKERS.filterMap (fun mk => rfind mk frag) :=
        List.mem_filterMap.mpr ⟨mk, hmem, hi⟩
      rw [(iterMin_eq_none_iff _).mp hL] at this
      exact absurd this (List.not_mem_nil i)
    · unfold locationClip
      rw [hL]
      rfl
  | some x =>
    have hxmem := iterMin_mem _ x hL
    obtain ⟨mk, hmem, hfind⟩ := List.mem_filterMap.mp hxmem
    have hocc : occursAt mk frag x := (rfind_some mk frag x hfind).1
    have hall : ∀ m ∈ LOCATION_STOP_MARKERS, m ≠ ([] : RStr) := by decide
    have hne : mk ≠ [] := hall mk hmem
    refine ⟨x, ?_, ?_, Or.inl ⟨mk, hmem, hocc⟩, ?_⟩
    · by_contra hgt
      push_neg at hgt
      have : frag.drop x = [] := List.drop_eq_nil_of_le (Nat.le_of_lt hgt)
      unfold occursAt at hocc
      rw [this] at hocc
      exact hne (List.prefix_nil.mp hocc)
    · intro j hj hmk
      obtain ⟨mk', hmem', hocc'⟩ := hmk
      obtain ⟨i, hi, hle⟩ := occursAt_rfind_le mk' frag j hocc'
      have : i ∈ LOCATION_STOP_MARKERS.filterMap (fun mk => rfind mk frag) :=
        List.mem_filterMap.mpr ⟨mk', hmem', hi⟩
      have := iterMin_le _ x hL i this
      omega
    · unfold locationClip
      rw [hL]
      rfl

/-- C8 (as stated): `location_phrase` tries `" between "` first, then
`" from "` (accepted only when `" through "` occurs later in the
clause, else no phrase); the fragment starts at `"between"`/`"from"`
(one character past the matched leading space) and is clipped by
`locationClip`, which (last conjunct) truncates at the earliest
stop-marker occurrence, trims trailing `.`/`,`/space, and reports an
empty remainder as no phrase. -/
theorem location_phrase_spec (c : RStr) :
    (∀ i, firstOccur (" between ".toList) c i →
      location_phrase c = locationClip (c.drop (i + 1))) ∧
    ((∀ i, ¬occursAt (" between ".toList) c i) →
      ∀ i, firstOccur (" from ".toList) c i →
        ((∃ j, occursAt (" through ".toList) (c.drop (i + 1)) j) →
          location_phrase c = locationClip (c.drop (i + 1))) ∧
        ((∀ j, ¬occursAt (" through ".toList) (c.drop (i + 1)) j) →
          location_phrase c = none)) ∧
    ((∀ i, ¬occursAt (" between ".toList) c i) →
      (∀ i, ¬occursAt (" from ".toList) c i) →
      location_phrase c = none) ∧
    (∀ frag : RStr, ∃ e, e ≤ frag.length ∧ (∀ j < e, ¬markerAt frag j) ∧
      (markerAt frag e ∨ e = frag.length) ∧
      locationClip frag =
        (if trimEndPunct (frag.take e) = [] then none
         else some (trimEndPunct (frag.take e)))) := by
  refine ⟨?_, ?_, ?_, fun frag => locationClip_spec frag⟩
  · intro i hfirst
    have hf : rfind (" between ".toList) c = some i := (rfind_eq_some_iff _ c i).mpr hfirst
    unfold location_phrase
    rw [hf]
  · intro hnb i hfirst
    have hb : rfind (" between ".toList) c = none := (rfind_none_iff _ c).mpr hnb
    have hf : rfind (" from ".toList) c = some i := (rfind_eq_some_iff _ c i).mpr hfirst
    constructor
    · intro hthr
      have hc : rcontains (" through ".toList) (c.drop (i + 1)) = true :=
        (rcontains_iff _ _).mpr hthr
      unfold location_phrase
      rw [hb, hf]
      show (if rcontains (" through ".toList) (c.drop (i + 1)) = true then
          locationClip (c.drop (i + 1)) else none) = locationClip (c.drop (i + 1))
      rw [hc]
      simp
    · intro hthr
      have hcf : rfind (" through ".toList) (c.drop (i + 1)) = none :=
        (rfind_none_iff _ _).mpr hthr
      have hc : rcontains (" through ".toList) (c.drop (i + 1)) = false := by
        unfold rcontains
        rw [hcf]
        rfl
      unfold location_phrase
      rw [hb, hf]
      show (if rcontains (" through ".toList) (c.drop (i + 1)) = true then
          locationClip (c.drop (i + 1)) else none) = none
      rw [hc]
      simp
  · intro hnb hnf
    have hb : rfind (" between ".toList) c = none := (rfind_none_iff _ c).mpr hnb
    have hf : rfind (" from ".toList) c = none := (rfind_none_iff _ c).mpr hnf
    unfold location_phrase
    rw [hb, hf]

/-- Witness for `location_phrase_spec` and `locationClip_spec` at the
spec's own examples: the `" between "` branch (first occurrence at
position 34), the rejected `"from ... to ..."` clause (first `" from "`
at position 29, no `" through "`), and the resulting concrete phrase.  -/
theorem location_phrase_spec_witness :
    location_phrase
      ("Shuttle buses will replace service between Broadway and Ashmont this weekend.".toList) =
      locationClip
        (("Shuttle buses will replace service between Broadway and Ashmont this weekend.".toList).drop
          35) ∧
    location_phrase
      ("Shuttle buses replace service from North Station to Anderson/Woburn.".toList) = none ∧
    location_phrase
      ("Shuttle buses will replace service between Broadway and Ashmont this weekend.".toList) =
      some ("between Broadway and Ashmont".toList) := by
  refine ⟨(location_phrase_spec _).1 34 (by decide), ?_, by decide⟩
  exact ((location_phrase_spec _).2.1 ((rfind_none_iff _ _).mp (by decide)) 29
    (by decide)).2 ((rfind_none_iff _ _).mp (by decide))

/-! ## Claim C6: totality of the summary generator -/

/-- A header of 31 bytes (one ASCII character followed by fifteen
two-byte characters) whose byte 30 falls inside the final `'é'`. -/
def panicHeader : RStr := 'a' :: List.replicate 15 'é'

/-- An alert carrying `panicHeader`: no line prefix and no location
phrase, so `event_summary` reaches `brief_content`. -/
def panicAlert : Alert :=
  { id := "alert-panic".toList
    attributes :=
      { header := panicHeader
        description := none
        url := none
        active_period := []
        effect := "DELAY".toList
        informed_entity := [{ route := some ("Red".toList) }] } }

/-- C6 fails on the code: `brief_content` computes
`scan_from = 30.min(end)` in *bytes* and slices
`content[scan_from..end]`, which panics when byte 30 is not a char
boundary.  On `panicHeader` (31 bytes, byte 30 inside a 2-byte `'é'`)
the stripped content passes no boilerplate phrase and no location
pattern, `end = 31 > 30`, and the slice panics — `event_summary` does
not return a string (the `none` here is the modelled panic), contrary
to the claim that it is total for all headers including multi-byte
ones.  (The source's own doc comment says "first `", "` after 30
*chars*", while the code counts bytes.) -/
theorem event_summary_panics :
    byteLen panicAlert.attributes.header = 31 ∧
    charAtByte panicAlert.attributes.header 30 = none ∧
    brief_content (strip_line_pre panicAlert.attributes.header) = none ∧
    event_summary panicAlert = none := by
  refine ⟨by decide, by decide, by decide, by decide⟩

/-! ## Claims C9 and C10: the event time window -/

/-- C9: `event_body` takes its time window from only the first active
period (conjunct 2 relates the body to `event_body_times`, conjunct 9
shows later periods are ignored); both timestamps present give a
`dateTime` range with the exact strings; start-only gives an all-day
event on the start date with end the next calendar day (`next_date`),
which rolls over month, year, and leap-day boundaries and passes
unparseable strings through unchanged (conjunct 1); no period gives
today/tomorrow. -/
theorem event_window_spec :
    (∀ s, parseDate s = none → next_date s = s) ∧
    (∀ today a b, event_body today a = some b →
      b.start = (event_body_times today a).1 ∧ b.stop = (event_body_times today a).2) ∧
    (∀ today s e, event_times today (some s) (some e) =
      (TimeJson.dateTime s, TimeJson.dateTime e)) ∧
    (∀ today s, event_times today (some s) none =
      (TimeJson.date (takeBytes10 s), TimeJson.date (next_date (takeBytes10 s)))) ∧
    (∀ today, event_times today none none =
      (TimeJson.date today, TimeJson.date (next_date today))) ∧
    next_date ("2024-01-31".toList) = "2024-02-01".toList ∧
    next_date ("2024-12-31".toList) = "2025-01-01".toList ∧
    next_date ("2024-02-29".toList) = "2024-03-01".toList ∧
    (∀ today id hdr ds u eff ents p rest,
      event_body_times today ⟨id, hdr, ds, u, p :: rest, eff, ents⟩ =
        event_body_times today ⟨id, hdr, ds, u, [p], eff, ents⟩) := by
  refine ⟨?_, ?_, fun _ _ _ => rfl, fun _ _ => rfl, fun _ => rfl,
    by decide, by decide, by decide, fun _ _ _ _ _ _ _ _ _ => rfl⟩
  · intro s h
    unfold next_date
    rw [h]
  · intro today a b hb
    unfold event_body at hb
    cases hs : event_summary a with
    | none => rw [hs] at hb; exact Option.noConfusion hb
    | some s =>
      rw [hs] at hb
      simp only [Option.map_some', Option.some.injEq] at hb
      subst hb
      exact ⟨rfl, rfl⟩

/-- Witness for `event_window_spec`: the pass-through conjunct at
`"not-a-date"` and the body conjunct at a concrete alert. -/
theorem event_window_spec_witness :
    parseDate ("not-a-date".toList) = none ∧
    next_date ("not-a-date".toList) = "not-a-date".toList ∧
    event_body ("2024-06-01".toList) panicAlert = none := by
  refine ⟨by decide, event_window_spec.1 ("not-a-date".toList) (by decide), by decide⟩

/-- C10: a first active period with an end but no start is treated
exactly like no active period at all — `event_times` matches `(None, _)`
before looking at the end, so the result is the all-day entry for the
wall-clock date with the next calendar day as exclusive end, and
`event_body` derives the same window from an end-only first period as
from an empty period list. -/
theorem end_only_period_ignored :
    (∀ today e, event_times today none (some e) =
      (TimeJson.date today, TimeJson.date (next_date today))) ∧
    (∀ today e, event_times today none (some e) = event_times today none none) ∧
    (∀ today id hdr ds u eff ents e rest,
      event_body_times today ⟨id, hdr, ds, u, ⟨none, some e⟩ :: rest, eff, ents⟩ =
        event_body_times today ⟨id, hdr, ds, u, [], eff, ents⟩) :=
  ⟨fun _ _ => rfl, fun _ _ => rfl, fun _ _ _ _ _ _ _ _ _ => rfl⟩

/-! ## Lemmas: association lists and the ownership map -/

/-- A successful lookup is a member. -/
theorem lookupAssoc_mem : ∀ (m : List (RStr × RStr)) (k v : RStr),
    lookupAssoc m k = some v → (k, v) ∈ m := by
  intro m
  induction m with
  | nil => intro k v h; simp [lookupAssoc] at h
  | cons p rest ih =>
    intro k v h
    unfold lookupAssoc at h
    by_cases hk : p.1 = k
    · rw [if_pos hk] at h
      simp only [Option.some.injEq] at h
      subst h
      subst hk
      exact List.mem_cons_self p rest
    · rw [if_neg hk] at h
      exact List.mem_cons_of_mem p (ih k v h)

/-- Lookup after insert. -/
theorem lookupAssoc_insert : ∀ (m : List (RStr × RStr)) (k v k' : RStr),
    lookupAssoc (insertAssoc m k v) k' =
      if k = k' then some v else lookupAssoc m k' := by
  intro m
  induction m with
  | nil => intro k v k'; simp [insertAssoc, lookupAssoc]
  | cons p rest ih =>
    intro k v k'
    obtain ⟨pk, pv⟩ := p
    by_cases hk : pk = k
    · show lookupAssoc (if pk = k then (k, v) :: rest else
        (pk, pv) :: insertAssoc rest k v) k' = _
      rw [if_pos hk]
      show (if k = k' then some v else lookupAssoc rest k') = _
      by_cases hk' : k = k'
      · rw [if_pos hk', if_pos hk']
      · rw [if_neg hk', if_neg hk']
        show _ = if pk = k' then some pv else lookupAssoc rest k'
        rw [hk, if_neg hk']
    · show lookupAssoc (if pk = k then (k, v) :: rest else
        (pk, pv) :: insertAssoc rest k v) k' = _
      rw [if_neg hk]
      show (if pk = k' then some pv else lookupAssoc (insertAssoc rest k v) k') = _
      by_cases hp : pk = k'
      · rw [if_pos hp]
        have hkk' : ¬k = k' := fun h => hk (hp ▸ h.symm ▸ rfl)
        rw [if_neg hkk']
        show _ = if pk = k' then some pv else lookupAssoc rest k'
        rw [if_pos hp]
      · rw [if_neg hp, ih k v k']
        by_cases hkk' : k = k'
        · rw [if_pos hkk', if_pos hkk']
        · rw [if_neg hkk', if_neg hkk']
          show _ = if pk = k' then some pv else lookupAssoc rest k'
          rw [if_neg hp]

/-- Members of an insert come from the inserted pair or the old map. -/
theorem mem_insertAssoc : ∀ (m : List (RStr × RStr)) (k v : RStr) (q : RStr × RStr),
    q ∈ insertAssoc m k v → q = (k, v) ∨ q ∈ m := by
  intro m
  induction m with
  | nil => intro k v q h; simp [insertAssoc] at h; exact Or.inl h
  | cons p rest ih =>
    intro k v q h
    unfold insertAssoc at h
    by_cases hk : p.1 = k
    · rw [if_pos hk] at h
      rcases List.mem_cons.mp h with h' | h'
      · exact Or.inl h'
      · exact Or.inr (List.mem_cons_of_mem p h')
    · rw [if_neg hk] at h
      rcases List.mem_cons.mp h with h' | h'
      · exact Or.inr (h' ▸ List.mem_cons_self p rest)
      · rcases ih k v q h' with h'' | h''
        · exact Or.inl h''
        · exact Or.inr (List.mem_cons_of_mem p h'')

/-- `buildMap` with an explicit accumulator (defeq to the `foldl`). -/
def buildMapGo (m0 : List (RStr × RStr)) (events : List CalendarEvent) :
    List (RStr × RStr) :=
  events.foldl
    (fun m e =>
      match e.alert_id with
      | some aid => insertAssoc m aid e.id
      | none => m)
    m0

/-- `buildMap` is `buildMapGo` from the empty accumulator. -/
theorem buildMap_eq_go (events : List CalendarEvent) :
    buildMap events = buildMapGo [] events := rfl

/-- Every entry of the built map is explained by a tagged event (or was
already in the accumulator). -/
theorem buildMapGo_mem : ∀ (events : List CalendarEvent) (m0 : List (RStr × RStr))
    (q : RStr × RStr), q ∈ buildMapGo m0 events →
      q ∈ m0 ∨ ∃ e ∈ events, e.alert_id = some q.1 ∧ e.id = q.2 := by
  intro events
  induction events with
  | nil => intro m0 q h; exact Or.inl h
  | cons e rest ih =>
    intro m0 q h
    have h' : q ∈ buildMapGo
        (match e.alert_id with
          | some aid => insertAssoc m0 aid e.id
          | none => m0) rest := h
    rcases ih _ q h' with h'' | ⟨e', he', ha, hi⟩
    · cases ha : e.alert_id with
      | none =>
        rw [ha] at h''
        exact Or.inl h''
      | some aid =>
        rw [ha] at h''
        rcases mem_insertAssoc m0 aid e.id q h'' with h3 | h3
        · refine Or.inr ⟨e, List.mem_cons_self e rest, ?_, ?_⟩
          · rw [ha, h3]
          · rw [h3]
        · exact Or.inl h3
    · exact Or.inr ⟨e', List.mem_cons_of_mem e he', ha, hi⟩

/-- A successful lookup in the built map is explained by a tagged event
(or by the accumulator). -/
theorem buildMapGo_lookup_some : ∀ (events : List CalendarEvent)
    (m0 : List (RStr × RStr)) (aid eid : RStr),
    lookupAssoc (buildMapGo m0 events) aid = some eid →
      lookupAssoc m0 aid = some eid ∨
        ∃ e ∈ events, e.alert_id = some aid ∧ e.id = eid := by
  intro events
  induction events with
  | nil => intro m0 aid eid h; exact Or.inl h
  | cons e rest ih =>
    intro m0 aid eid h
    have h' : lookupAssoc (buildMapGo
        (match e.alert_id with
          | some aid' => insertAssoc m0 aid' e.id
          | none => m0) rest) aid = some eid := h
    rcases ih _ aid eid h' with h'' | ⟨e', he', ha, hi⟩
    · cases ha : e.alert_id with
      | none =>
        rw [ha] at h''
        exact Or.inl h''
      | some aid' =>
        rw [ha, lookupAssoc_insert] at h''
        by_cases hk : aid' = aid
        · rw [if_pos hk] at h''
          simp only [Option.some.injEq] at h''
          refine Or.inr ⟨e, List.mem_cons_self e rest, ?_, h''⟩
          rw [ha, hk]
        · rw [if_neg hk] at h''
          exact Or.inl h''
    · exact Or.inr ⟨e', List.mem_cons_of_mem e he', ha, hi⟩

/-- A failed lookup in the built map means no event carries the id. -/
theorem buildMapGo_lookup_none : ∀ (events : List CalendarEvent)
    (m0 : List (RStr × RStr)) (aid : RStr),
    lookupAssoc (buildMapGo m0 events) aid = none →
      lookupAssoc m0 aid = none ∧ ∀ e ∈ events, e.alert_id ≠ some aid := by
  intro events
  induction events with
  | nil =>
    intro m0 aid h
    exact ⟨h, fun e he => absurd he (List.not_mem_nil e)⟩
  | cons e rest ih =>
    intro m0 aid h
    have h' : lookupAssoc (buildMapGo
        (match e.alert_id with
          | some aid' => insertAssoc m0 aid' e.id
          | none => m0) rest) aid = none := h
    obtain ⟨h0, hrest⟩ := ih _ aid h'
    cases ha : e.alert_id with
    | none =>
      rw [ha] at h0
      refine ⟨h0, ?_⟩
      intro e' he'
      rcases List.mem_cons.mp he' with h'' | h''
      · rw [h'', ha]; exact fun hc => Option.noConfusion hc
      · exact hrest e' h''
    | some aid' =>
      rw [ha, lookupAssoc_insert] at h0
      by_cases hk : aid' = aid
      · rw [if_pos hk] at h0; exact Option.noConfusion h0
      · rw [if_neg hk] at h0
        refine ⟨h0, ?_⟩
        intro e' he'
        rcases List.mem_cons.mp he' with h'' | h''
        · rw [h'', ha]
          intro hc
          simp only [Option.some.injEq] at hc
          exact hk hc
        · exact hrest e' h''

/-- A tagged event always yields a map entry for its id. -/
theorem buildMapGo_lookup_isSome : ∀ (events : List CalendarEvent)
    (m0 : List (RStr × RStr)) (aid : RStr),
    ((lookupAssoc m0 aid).isSome ∨ ∃ e ∈ events, e.alert_id = some aid) →
      (lookupAssoc (buildMapGo m0 events) aid).isSome := by
  intro events
  induction events with
  | nil =>
    intro m0 aid h
    rcases h with h | ⟨e, he, _⟩
    · exact h
    · exact absurd he (List.not_mem_nil e)
  | cons e rest ih =>
    intro m0 aid h
    show (lookupAssoc (buildMapGo
      (match e.alert_id with
        | some aid' => insertAssoc m0 aid' e.id
        | none => m0) rest) aid).isSome
    apply ih
    rcases h with h | ⟨e', he', ha⟩
    · left
      cases hae : e.alert_id with
      | none => exact h
      | some aid' =>
        rw [lookupAssoc_insert]
        by_cases hk : aid' = aid
        · rw [if_pos hk]; rfl
        · rw [if_neg hk]; exact h
    · rcases List.mem_cons.mp he' with h'' | h''
      · left
        rw [← h''] at *
        rw [ha, lookupAssoc_insert, if_pos rfl]
        rfl
      · exact Or.inr ⟨e', h'', ha⟩

/-! ## Lemmas: the alert loop and the delete phase -/

/-- A create in the loop comes from a non-skipped, unmapped live alert. -/
theorem create_mem_loopOps (m : List (RStr × RStr)) :
    ∀ (alerts : List Alert) (a : Alert), CalOp.create a ∈ loopOps m alerts →
      a ∈ alerts ∧ skipEffect a.attributes.effect = false ∧
        lookupAssoc m a.id = none := by
  intro alerts
  induction alerts with
  | nil => intro a h; simp [loopOps] at h
  | cons b rest ih =>
    intro a h
    unfold loopOps at h
    by_cases hskip : skipEffect b.attributes.effect
    · rw [if_pos hskip] at h
      obtain ⟨h1, h2, h3⟩ := ih a h
      exact ⟨List.mem_cons_of_mem b h1, h2, h3⟩
    · rw [if_neg hskip] at h
      cases hl : lookupAssoc m b.id with
      | some eid =>
        rw [hl] at h
        rcases List.mem_cons.mp h with h' | h'
        · exact absurd h' (by intro hc; exact CalOp.noConfusion hc)
        · obtain ⟨h1, h2, h3⟩ := ih a h'
          exact ⟨List.mem_cons_of_mem b h1, h2, h3⟩
      | none =>
        rw [hl] at h
        rcases List.mem_cons.mp h with h' | h'
        · have hab : a = b := by
            injection h' with h''
          subst hab
          exact ⟨List.mem_cons_self a rest, Bool.eq_false_iff.mpr hskip, hl⟩
        · obtain ⟨h1, h2, h3⟩ := ih a h'
          exact ⟨List.mem_cons_of_mem b h1, h2, h3⟩

/-- An update in the loop comes from a non-skipped live alert mapped to
that event id. -/
theorem update_mem_loopOps (m : List (RStr × RStr)) :
    ∀ (alerts : List Alert) (eid : RStr) (a : Alert),
      CalOp.update eid a ∈ loopOps m alerts →
      a ∈ alerts ∧ skipEffect a.attributes.effect = false ∧
        lookupAssoc m a.id = some eid := by
  intro alerts
  induction alerts with
  | nil => intro eid a h; simp [loopOps] at h
  | cons b rest ih =>
    intro eid a h
    unfold loopOps at h
    by_cases hskip : skipEffect b.attributes.effect
    · rw [if_pos hskip] at h
      obtain ⟨h1, h2, h3⟩ := ih eid a h
      exact ⟨List.mem_cons_of_mem b h1, h2, h3⟩
    · rw [if_neg hskip] at h
      cases hl : lookupAssoc m b.id with
      | some eid' =>
        rw [hl] at h
        rcases List.mem_cons.mp h with h' | h'
        · injection h' with h1 h2
          subst h1
          subst h2
          exact ⟨List.mem_cons_self a rest, Bool.eq_false_iff.mpr hskip, hl⟩
        · obtain ⟨h1, h2, h3⟩ := ih eid a h'
          exact ⟨List.mem_cons_of_mem b h1, h2, h3⟩
      | none =>
        rw [hl] at h
        rcases List.mem_cons.mp h with h' | h'
        · exact absurd h' (by intro hc; exact CalOp.noConfusion hc)
        · obtain ⟨h1, h2, h3⟩ := ih eid a h'
          exact ⟨List.mem_cons_of_mem b h1, h2, h3⟩

/-- The loop issues no deletes. -/
theorem delete_not_mem_loopOps (m : List (RStr × RStr)) :
    ∀ (alerts : List Alert) (eid : RStr), CalOp.delete eid ∉ loopOps m alerts := by
  intro alerts
  induction alerts with
  | nil => intro eid h; simp [loopOps] at h
  | cons b rest ih =>
    intro eid h
    unfold loopOps at h
    by_cases hskip : skipEffect b.attributes.effect
    · rw [if_pos hskip] at h
      exact ih eid h
    · rw [if_neg hskip] at h
      cases hl : lookupAssoc m b.id with
      | some eid' =>
        rw [hl] at h
        rcases List.mem_cons.mp h with h' | h'
        · exact CalOp.noConfusion h'
        · exact ih eid h'
      | none =>
        rw [hl] at h
        rcases List.mem_cons.mp h with h' | h'
        · exact CalOp.noConfusion h'
        · exact ih eid h'

/-- Membership in the seen set. -/
theorem mem_seenIds (alerts : List Alert) (aid : RStr) :
    aid ∈ seenIds alerts ↔
      ∃ a ∈ alerts, skipEffect a.attributes.effect = false ∧ a.id = aid := by
  unfold seenIds
  rw [List.mem_filterMap]
  constructor
  · rintro ⟨a, ha, hf⟩
    by_cases hskip : skipEffect a.attributes.effect
    · rw [if_pos hskip] at hf; exact Option.noConfusion hf
    · rw [if_neg hskip] at hf
      simp only [Option.some.injEq] at hf
      exact ⟨a, ha, Bool.eq_false_iff.mpr hskip, hf⟩
  · rintro ⟨a, ha, hskip, hid⟩
    refine ⟨a, ha, ?_⟩
    rw [hskip]
    simp [hid]

/-- Shape of the delete phase of `sync_alerts`. -/
theorem mem_deletePhase (alerts : List Alert) (m : List (RStr × RStr)) (op : CalOp) :
    op ∈ m.filterMap (fun p =>
      if p.1 ∈ seenIds alerts then none else some (CalOp.delete p.2)) ↔
    ∃ p ∈ m, p.1 ∉ seenIds alerts ∧ op = CalOp.delete p.2 := by
  rw [List.mem_filterMap]
  constructor
  · rintro ⟨p, hp, hf⟩
    by_cases hseen : p.1 ∈ seenIds alerts
    · rw [if_pos hseen] at hf; exact Option.noConfusion hf
    · rw [if_neg hseen] at hf
      simp only [Option.some.injEq] at hf
      exact ⟨p, hp, hseen, hf.symm⟩
  · rintro ⟨p, hp, hseen, hop⟩
    refine ⟨p, hp, ?_⟩
    rw [if_neg hseen, hop]

/-- Unfolding of `sync_alerts`. -/
theorem sync_alerts_def (alerts : List Alert) (existing : List CalendarEvent) :
    sync_alerts alerts existing =
      loopOps (buildMap existing) alerts ++
        (buildMap existing).filterMap (fun p =>
          if p.1 ∈ seenIds alerts then none else some (CalOp.delete p.2)) := rfl

/-! ## Concrete fixtures for counterexamples and witnesses -/

/-- A live alert with a non-skipped effect. -/
def alertA : Alert :=
  { id := "alert-A".toList
    attributes :=
      { header := "Test header A".toList
        description := some ("desc A".toList)
        url := none
        active_period := []
        effect := "SHUTTLE".toList
        informed_entity := [{ route := some ("Red".toList) }] } }

/-- A second live alert with a non-skipped effect. -/
def alertB : Alert :=
  { id := "alert-B".toList
    attributes :=
      { header := "Test header B".toList
        description := none
        url := none
        active_period := []
        effect := "DELAY".toList
        informed_entity := [{ route := some ("Orange".toList) }] } }

/-- A live alert with a skip-listed effect. -/
def skipAlert : Alert :=
  { id := "alert-S".toList
    attributes :=
      { header := "Elevator out of service".toList
        description := none
        url := none
        active_period := []
        effect := "STATION_ISSUE".toList
        informed_entity := [{ route := some ("Red".toList) }] } }

/-- A remote tagged event carrying `skipAlert`'s id. -/
def taggedEventS : CalendarEvent :=
  { id := "evt-1".toList
    extended_properties := some
      { priv_props := some
          [("mbta_alert_source".toList, "true".toList),
            ("mbta_alert_id".toList, "alert-S".toList)] } }

/-- A remote event with no ownership tag. -/
def untaggedEvent : CalendarEvent :=
  { id := "evt-u".toList
    extended_properties := none }

/-! ## Claim C3: failure propagation during execution -/

/-- C3 counterexample: with live alerts `{A, B}` and an empty remote
set the plan is `[create A, create B]`; if the `create A` call fails,
`create B` — a remaining operation that does not itself fail — is never
attempted (the source's `?` returns immediately), and the error
propagates.  This falsifies "one failing call does not prevent the
remaining operations from being attempted". -/
theorem failure_stops_run_counterexample :
    sync_alerts [alertA, alertB] [] = [CalOp.create alertA, CalOp.create alertB] ∧
    (fun op => match op with
      | CalOp.create a => a.id = "alert-A".toList
      | _ => false : CalOp → Bool) (CalOp.create alertB) = false ∧
    (runOps (fun op => match op with
      | CalOp.create a => a.id = "alert-A".toList
      | _ => false) [CalOp.create alertA, CalOp.create alertB]).1 = [] ∧
    (runOps (fun op => match op with
      | CalOp.create a => a.id = "alert-A".toList
      | _ => false) [CalOp.create alertA, CalOp.create alertB]).2 = false := by
  refine ⟨by decide, by decide, by decide, by decide⟩

/-- C3 (amended): a per-call failure propagates to the caller (the run
reports failure exactly when some planned call fails), the calls before
the first failing call remain executed with no rollback, and the
failing call halts the run — the calls from the first failure onwards
are not attempted. -/
theorem runOps_halts_spec (fails : CalOp → Bool) (ops : List CalOp) :
    runOps fails ops =
      (ops.takeWhile (fun op => !fails op), ops.all (fun op => !fails op)) ∧
    ((runOps fails ops).2 = false ↔ ∃ op ∈ ops, fails op = true) := by
  have h1 : runOps fails ops =
      (ops.takeWhile (fun op => !fails op), ops.all (fun op => !fails op)) := by
    induction ops with
    | nil => rfl
    | cons op rest ih =>
      unfold runOps
      by_cases hf : fails op
      · rw [if_pos hf]
        simp [List.takeWhile_cons, List.all_cons, hf]
      · rw [if_neg hf]
        rw [ih]
        simp [List.takeWhile_cons, List.all_cons, hf]
  refine ⟨h1, ?_⟩
  rw [h1]
  show (ops.all (fun op => !fails op) = false) ↔ ∃ op ∈ ops, fails op = true
  rw [Bool.eq_false_iff]
  rw [Ne, List.all_eq_true]
  push_neg
  constructor
  · rintro ⟨op, hop, hnot⟩
    refine ⟨op, hop, ?_⟩
    revert hnot
    cases fails op <;> simp
  · rintro ⟨op, hop, hfo⟩
    refine ⟨op, hop, ?_⟩
    rw [hfo]
    simp

/-! ## Claim C4: skip-listed alerts -/

/-- C4 counterexample: a live alert with the skip-listed effect
`STATION_ISSUE` whose id already has a tagged remote event.  The loop
skips the alert *without* marking it seen, so the delete phase deletes
its event — the pass issues one delete, contradicting "never produces a
create, update, or delete ... including runs where a tagged remote
event carrying that alert's id already exists". -/
theorem skip_alert_delete_counterexample :
    skipEffect skipAlert.attributes.effect = true ∧
    taggedEventS.alert_id = some skipAlert.id ∧
    sync_alerts [skipAlert] [taggedEventS] = [CalOp.delete ("evt-1".toList)] ∧
    countDeletes (sync_alerts [skipAlert] [taggedEventS]) = 1 := by
  refine ⟨by decide, by decide, by decide, by decide⟩

/-- C4 (amended): a skip-listed alert never produces a create or an
update; but it is treated as absent, so when a mapped alert id is
carried only by skip-listed live alerts, the pass *deletes* the mapped
event. -/
theorem skip_effect_ops (alerts : List Alert) (existing : List CalendarEvent) :
    (∀ a, CalOp.create a ∈ sync_alerts alerts existing →
      skipEffect a.attributes.effect = false) ∧
    (∀ eid a, CalOp.update eid a ∈ sync_alerts alerts existing →
      skipEffect a.attributes.effect = false) ∧
    (∀ aid eid, lookupAssoc (buildMap existing) aid = some eid →
      (∀ a ∈ alerts, a.id = aid → skipEffect a.attributes.effect = true) →
      CalOp.delete eid ∈ sync_alerts alerts existing) := by
  refine ⟨?_, ?_, ?_⟩
  · intro a h
    rw [sync_alerts_def] at h
    rcases List.mem_append.mp h with h' | h'
    · exact (create_mem_loopOps _ alerts a h').2.1
    · obtain ⟨p, _, _, hop⟩ := (mem_deletePhase alerts (buildMap existing) _).mp h'
      exact CalOp.noConfusion hop
  · intro eid a h
    rw [sync_alerts_def] at h
    rcases List.mem_append.mp h with h' | h'
    · exact (update_mem_loopOps _ alerts eid a h').2.1
    · obtain ⟨p, _, _, hop⟩ := (mem_deletePhase alerts (buildMap existing) _).mp h'
      exact CalOp.noConfusion hop
  · intro aid eid hl hall
    have hmem : (aid, eid) ∈ buildMap existing := lookupAssoc_mem _ aid eid hl
    have hseen : aid ∉ seenIds alerts := by
      intro hs
      obtain ⟨a, ha, hskip, hid⟩ := (mem_seenIds alerts aid).mp hs
      rw [hall a ha hid] at hskip
      exact Bool.noConfusion hskip
    rw [sync_alerts_def]
    exact List.mem_append.mpr (Or.inr
      ((mem_deletePhase alerts (buildMap existing) _).mpr ⟨(aid, eid), hmem, hseen, rfl⟩))

/-- Witness for `skip_effect_ops` at concrete inputs: with live alerts
`[alertA, skipAlert]` against `taggedEventS` (which carries
`skipAlert`'s id), the pass creates for `alertA` only and deletes
`skipAlert`'s event. -/
theorem skip_effect_ops_witness :
    skipEffect alertA.attributes.effect = false ∧
    CalOp.delete ("evt-1".toList) ∈ sync_alerts [alertA, skipAlert] [taggedEventS] := by
  refine ⟨(skip_effect_ops [alertA, skipAlert] [taggedEventS]).1 alertA (by decide), ?_⟩
  exact (skip_effect_ops [alertA, skipAlert] [taggedEventS]).2.2
    ("alert-S".toList) ("evt-1".toList) (by decide) (by decide)

/-! ## Claim C5: untagged events are never touched -/

/-- `buildMap` ignores untagged events entirely. -/
theorem buildMapGo_filter_tagged : ∀ (events : List CalendarEvent)
    (m0 : List (RStr × RStr)),
    buildMapGo m0 events =
      buildMapGo m0 (events.filter (fun ev => ev.alert_id.isSome)) := by
  intro events
  induction events with
  | nil => intro m0; rfl
  | cons e rest ih =>
    intro m0
    cases ha : e.alert_id with
    | none =>
      have hf : (e :: rest).filter (fun ev => ev.alert_id.isSome) =
          rest.filter (fun ev => ev.alert_id.isSome) := by
        rw [List.filter_cons]
        rw [ha]
        rfl
      rw [hf]
      show buildMapGo (match e.alert_id with
        | some aid => insertAssoc m0 aid e.id
        | none => m0) rest = _
      rw [ha]
      exact ih m0
    | some aid =>
      have hf : (e :: rest).filter (fun ev => ev.alert_id.isSome) =
          e :: rest.filter (fun ev => ev.alert_id.isSome) := by
        rw [List.filter_cons]
        rw [ha]
        rfl
      rw [hf]
      show buildMapGo (match e.alert_id with
        | some aid' => insertAssoc m0 aid' e.id
        | none => m0) rest =
        buildMapGo (match e.alert_id with
        | some aid' => insertAssoc m0 aid' e.id
        | none => m0) (rest.filter (fun ev => ev.alert_id.isSome))
      exact ih _

/-- C5: a remote event without the `mbta_alert_id` tag is never updated
and never deleted by a pass (assuming, as the calendar guarantees,
distinct event ids), and the alert-id map is built exclusively from
tagged events. -/
theorem untagged_events_untouched (alerts : List Alert) (existing : List CalendarEvent)
    (hids : (existing.map CalendarEvent.id).Nodup) (e : CalendarEvent)
    (he : e ∈ existing) (huntag : e.alert_id = none) :
    (∀ a, CalOp.update e.id a ∉ sync_alerts alerts existing) ∧
    CalOp.delete e.id ∉ sync_alerts alerts existing ∧
    buildMap existing = buildMap (existing.filter (fun ev => ev.alert_id.isSome)) := by
  have clash : ∀ e' ∈ existing, (∃ aid, e'.alert_id = some aid) → e'.id = e.id → False := by
    intro e' he' ⟨aid, ha⟩ hid
    have : e' = e := List.inj_on_of_nodup_map hids he' he hid
    rw [this] at ha
    rw [huntag] at ha
    exact Option.noConfusion ha
  refine ⟨?_, ?_, ?_⟩
  · intro a h
    rw [sync_alerts_def] at h
    rcases List.mem_append.mp h with h' | h'
    · have hl := (update_mem_loopOps _ alerts e.id a h').2.2
      rcases buildMapGo_lookup_some existing [] a.id e.id hl with h'' | ⟨e', he', ha, hi⟩
      · exact Option.noConfusion h''
      · exact clash e' he' ⟨a.id, ha⟩ hi
    · obtain ⟨p, _, _, hop⟩ := (mem_deletePhase alerts (buildMap existing) _).mp h'
      exact CalOp.noConfusion hop
  · intro h
    rw [sync_alerts_def] at h
    rcases List.mem_append.mp h with h' | h'
    · exact delete_not_mem_loopOps _ alerts e.id h'
    · obtain ⟨p, hp, _, hop⟩ := (mem_deletePhase alerts (buildMap existing) _).mp h'
      have hpe : p.2 = e.id := by
        injection hop with h''
        exact h''.symm
      rcases buildMapGo_mem existing [] p hp with h'' | ⟨e', he', ha, hi⟩
      · exact absurd h'' (List.not_mem_nil p)
      · exact clash e' he' ⟨p.1, ha⟩ (hpe ▸ hi)
  · exact buildMapGo_filter_tagged existing []

/-- Witness for `untagged_events_untouched`: a concrete untagged event
alongside a tagged one, with a live alert whose id coincides with the
untagged event's id — it is still never updated or deleted. -/
theorem untagged_events_untouched_witness :
    (∀ a, CalOp.update ("evt-u".toList) a ∉
      sync_alerts [alertA] [taggedEventS, untaggedEvent]) ∧
    CalOp.delete ("evt-u".toList) ∉
      sync_alerts [alertA] [taggedEventS, untaggedEvent] ∧
    buildMap [taggedEventS, untaggedEvent] =
      buildMap ([taggedEventS, untaggedEvent].filter (fun ev => ev.alert_id.isSome)) :=
  untagged_events_untouched [alertA] [taggedEventS, untaggedEvent]
    (by decide) untaggedEvent (by decide) (by decide)

/-! ## Claim C1: reconciler round trip -/

/-- The written payload tags the event with the alert id. -/
theorem mkEvent_alert_id (eid aid : RStr) : (mkEvent eid aid).alert_id = some aid := rfl

/-- The written payload keeps the event id. -/
theorem mkEvent_id (eid aid : RStr) : (mkEvent eid aid).id = eid := rfl

/-- C1: for two live alerts with distinct ids and non-skipped effects
and an empty tagged remote set, the first pass issues exactly the two
creates; rerunning against the two resulting tagged events issues
exactly the two updates (carrying the same alerts, hence identical
`event_body` payloads) and nothing else; dropping `B` on a third pass
issues exactly one update (for `A`'s event) and one delete (for `B`'s
event).  `gen` enumerates the server-assigned event ids of creates. -/
theorem sync_round_trip (A B : Alert) (gen : Nat → RStr)
    (hA : skipEffect A.attributes.effect = false)
    (hB : skipEffect B.attributes.effect = false)
    (hAB : A.id ≠ B.id) (hg : gen 0 ≠ gen 1) :
    sync_alerts [A, B] [] = [CalOp.create A, CalOp.create B] ∧
    sync_alerts [A, B] (applyOps gen ([], 0) (sync_alerts [A, B] [])).1 =
      [CalOp.update (gen 0) A, CalOp.update (gen 1) B] ∧
    sync_alerts [A]
      (applyOps gen (applyOps gen ([], 0) (sync_alerts [A, B] []))
        (sync_alerts [A, B] (applyOps gen ([], 0) (sync_alerts [A, B] [])).1)).1 =
      [CalOp.update (gen 0) A, CalOp.delete (gen 1)] ∧
    countCreates (sync_alerts [A, B] []) = 2 ∧
    countUpdates (sync_alerts [A, B] []) = 0 ∧
    countDeletes (sync_alerts [A, B] []) = 0 ∧
    countCreates (sync_alerts [A, B] (applyOps gen ([], 0) (sync_alerts [A, B] [])).1) = 0 ∧
    countUpdates (sync_alerts [A, B] (applyOps gen ([], 0) (sync_alerts [A, B] [])).1) = 2 ∧
    countDeletes (sync_alerts [A, B] (applyOps gen ([], 0) (sync_alerts [A, B] [])).1) = 0 := by
  have e0 : sync_alerts [A, B] [] = [CalOp.create A, CalOp.create B] := by
    rw [sync_alerts_def]
    simp [buildMap, buildMapGo, loopOps, lookupAssoc, hA, hB]
  have st1 : applyOps gen ([], 0) [CalOp.create A, CalOp.create B] =
      ([mkEvent (gen 0) A.id, mkEvent (gen 1) B.id], 2) := by
    simp [applyOps, applyOp]
  have m1 : buildMap [mkEvent (gen 0) A.id, mkEvent (gen 1) B.id] =
      [(A.id, gen 0), (B.id, gen 1)] := by
    show buildMapGo [] [mkEvent (gen 0) A.id, mkEvent (gen 1) B.id] =
      [(A.id, gen 0), (B.id, gen 1)]
    simp [buildMapGo, mkEvent_alert_id, mkEvent_id, insertAssoc, hAB]
  have ops2 : sync_alerts [A, B] [mkEvent (gen 0) A.id, mkEvent (gen 1) B.id] =
      [CalOp.update (gen 0) A, CalOp.update (gen 1) B] := by
    rw [sync_alerts_def, m1]
    simp [loopOps, lookupAssoc, seenIds, hA, hB, hAB]
  have st2 : applyOps gen ([mkEvent (gen 0) A.id, mkEvent (gen 1) B.id], 2)
      [CalOp.update (gen 0) A, CalOp.update (gen 1) B] =
      ([mkEvent (gen 0) A.id, mkEvent (gen 1) B.id], 2) := by
    simp [applyOps, applyOp, mkEvent_id, hg, Ne.symm hg]
  have ops3 : sync_alerts [A] [mkEvent (gen 0) A.id, mkEvent (gen 1) B.id] =
      [CalOp.update (gen 0) A, CalOp.delete (gen 1)] := by
    rw [sync_alerts_def, m1]
    simp [loopOps, lookupAssoc, seenIds, hA, hAB, Ne.symm hAB]
  rw [e0, st1]
  simp only []
  rw [ops2, st2]
  simp only []
  rw [ops3]
  simp [countCreates, countUpdates, countDeletes, List.countP_cons]

/-- A concrete event-id generator for witnesses. -/
def genW : Nat → RStr := fun n => 'g' :: natChars n

/-- Witness for `sync_round_trip` at the concrete alerts `alertA`,
`alertB` and generator `genW`. -/
theorem sync_round_trip_witness :
    sync_alerts [alertA, alertB] [] = [CalOp.create alertA, CalOp.create alertB] ∧
    sync_alerts [alertA, alertB]
      (applyOps genW ([], 0) (sync_alerts [alertA, alertB] [])).1 =
      [CalOp.update (genW 0) alertA, CalOp.update (genW 1) alertB] ∧
    sync_alerts [alertA]
      (applyOps genW (applyOps genW ([], 0) (sync_alerts [alertA, alertB] []))
        (sync_alerts [alertA, alertB]
          (applyOps genW ([], 0) (sync_alerts [alertA, alertB] [])).1)).1 =
      [CalOp.update (genW 0) alertA, CalOp.delete (genW 1)] := by
  obtain ⟨h1, h2, h3, _⟩ :=
    sync_round_trip alertA alertB genW (by decide) (by decide) (by decide) (by decide)
  exact ⟨h1, h2, h3⟩

/-! ## Claim C2: at most one event per alert id -/

/-- Two tagged remote events both carrying alert id `"alert-S"`. -/
def taggedEventS2 : CalendarEvent :=
  { id := "evt-2".toList
    extended_properties := some
      { priv_props := some
          [("mbta_alert_source".toList, "true".toList),
            ("mbta_alert_id".toList, "alert-S".toList)] } }

/-- A live alert with id `"alert-S"` and a non-skipped effect. -/
def alertS : Alert :=
  { id := "alert-S".toList
    attributes :=
      { header := "Test header S".toList
        description := none
        url := none
        active_period := []
        effect := "SHUTTLE".toList
        informed_entity := [{ route := some ("Red".toList) }] } }

/-- C2 counterexample: from a remote state with two tagged events both
carrying alert id `"alert-S"` and that alert still live, the map keeps
only the last event (`HashMap` overwrite), the pass issues a single
update to it, the other duplicate is neither updated nor deleted (its
id was overwritten out of the map and the id is "seen"), and the state
after the pass still contains two tagged events with the same alert id
— the claimed invariant is not restored by a pass. -/
theorem duplicate_alert_id_counterexample :
    sync_alerts [alertS] [taggedEventS, taggedEventS2] =
      [CalOp.update ("evt-2".toList) alertS] ∧
    taggedIds (applyOps genW ([taggedEventS, taggedEventS2], 0)
      (sync_alerts [alertS] [taggedEventS, taggedEventS2])).1 =
      ["alert-S".toList, "alert-S".toList] ∧
    ¬(taggedIds (applyOps genW ([taggedEventS, taggedEventS2], 0)
      (sync_alerts [alertS] [taggedEventS, taggedEventS2])).1).Nodup := by
  refine ⟨by decide, by decide, by decide⟩

/-- The ids of the alerts a pass creates events for: live, non-skipped,
and not in the ownership map. -/
def createdIds (m : List (RStr × RStr)) (alerts : List Alert) : List RStr :=
  alerts.filterMap (fun a =>
    if skipEffect a.attributes.effect then none
    else
      match lookupAssoc m a.id with
      | some _ => none
      | none => some a.id)

/-- A `filterMap` that only ever keeps `g a` is a sublist of the `map`. -/
theorem filterMap_sublist_map {α β : Type} (f : α → Option β) (g : α → β) :
    ∀ (l : List α), (∀ a, f a = none ∨ f a = some (g a)) →
      List.Sublist (l.filterMap f) (l.map g) := by
  intro l h
  induction l with
  | nil => simp
  | cons a rest ih =>
    rcases h a with ha | ha
    · simp only [List.filterMap_cons, ha, List.map_cons]
      exact List.Sublist.cons _ ih
    · simp only [List.filterMap_cons, ha, List.map_cons]
      exact List.Sublist.cons₂ _ ih

/-- Effect of the alert loop on the tagged alert ids of the remote
state: when the map is consistent with the state (every mapped event id
belongs to events tagged with the mapped alert id), the map is
value-injective, and fresh server ids never collide with mapped event
ids, the loop's updates rewrite events without changing their alert id
and its creates append exactly `createdIds`. -/
theorem loop_taggedIds (gen : Nat → RStr) (m : List (RStr × RStr)) :
    ∀ (alerts : List Alert) (st : List CalendarEvent) (n : Nat),
    (∀ aid eid, lookupAssoc m aid = some eid →
      ∀ e ∈ st, e.id = eid → e.alert_id = some aid) →
    (∀ aid aid' eid, lookupAssoc m aid = some eid →
      lookupAssoc m aid' = some eid → aid = aid') →
    (∀ k aid, lookupAssoc m aid ≠ some (gen k)) →
    taggedIds (applyOps gen (st, n) (loopOps m alerts)).1 =
      taggedIds st ++ createdIds m alerts := by
  intro alerts
  induction alerts with
  | nil =>
    intro st n _ _ _
    simp [loopOps, applyOps, createdIds]
  | cons a rest ih =>
    intro st n hcons hinj hfresh
    by_cases hskip : skipEffect a.attributes.effect
    · have hl : loopOps m (a :: rest) = loopOps m rest := by
        rw [loopOps, if_pos hskip]
      have hc : createdIds m (a :: rest) = createdIds m rest := by
        simp [createdIds, hskip]
      rw [hl, hc]
      exact ih st n hcons hinj hfresh
    · cases hlk : lookupAssoc m a.id with
      | some eid =>
        have hl : loopOps m (a :: rest) = CalOp.update eid a :: loopOps m rest := by
          rw [loopOps, if_neg hskip, hlk]
        have hc : createdIds m (a :: rest) = createdIds m rest := by
          simp [createdIds, hskip, hlk]
        rw [hl, hc]
        have hstep : applyOps gen (st, n) (CalOp.update eid a :: loopOps m rest) =
            applyOps gen
              (st.map (fun e => if e.id = eid then mkEvent eid a.id else e), n)
              (loopOps m rest) := rfl
        rw [hstep]
        have htag : taggedIds
            (st.map (fun e => if e.id = eid then mkEvent eid a.id else e)) =
            taggedIds st := by
          show (st.map fun e => if e.id = eid then mkEvent eid a.id else e).filterMap
            CalendarEvent.alert_id = st.filterMap CalendarEvent.alert_id
          rw [List.filterMap_map]
          apply List.filterMap_congr
          intro e he
          show CalendarEvent.alert_id (if e.id = eid then mkEvent eid a.id else e) =
            CalendarEvent.alert_id e
          by_cases hid : e.id = eid
          · rw [if_pos hid, mkEvent_alert_id]
            exact (hcons a.id eid hlk e he hid).symm
          · rw [if_neg hid]
        have hcons' : ∀ aid eid0, lookupAssoc m aid = some eid0 →
            ∀ e' ∈ st.map (fun e => if e.id = eid then mkEvent eid a.id else e),
              e'.id = eid0 → e'.alert_id = some aid := by
          intro aid eid0 hlk0 e' he' hid
          obtain ⟨e, he, rfl⟩ := List.mem_map.mp he'
          by_cases hide : e.id = eid
          · rw [if_pos hide] at hid ⊢
            rw [mkEvent_id] at hid
            subst hid
            rw [mkEvent_alert_id]
            rw [hinj aid a.id eid hlk0 hlk]
          · rw [if_neg hide] at hid ⊢
            exact hcons aid eid0 hlk0 e he hid
        rw [ih _ n hcons' hinj hfresh, htag]
      | none =>
        have hl : loopOps m (a :: rest) = CalOp.create a :: loopOps m rest := by
          rw [loopOps, if_neg hskip, hlk]
        have hc : createdIds m (a :: rest) = a.id :: createdIds m rest := by
          simp [createdIds, hskip, hlk]
        rw [hl, hc]
        have hstep : applyOps gen (st, n) (CalOp.create a :: loopOps m rest) =
            applyOps gen (st ++ [mkEvent (gen n) a.id], n + 1) (loopOps m rest) := rfl
        rw [hstep]
        have hcons' : ∀ aid eid0, lookupAssoc m aid = some eid0 →
            ∀ e' ∈ st ++ [mkEvent (gen n) a.id], e'.id = eid0 →
              e'.alert_id = some aid := by
          intro aid eid0 hlk0 e' he' hid
          rcases List.mem_append.mp he' with he'' | he''
          · exact hcons aid eid0 hlk0 e' he'' hid
          · rw [List.mem_singleton] at he''
            subst he''
            rw [mkEvent_id] at hid
            rw [← hid] at hlk0
            exact absurd hlk0 (hfresh n aid)
        rw [ih _ (n + 1) hcons' hinj hfresh]
        have happ : taggedIds (st ++ [mkEvent (gen n) a.id]) =
            taggedIds st ++ [a.id] := by
          show (st ++ [mkEvent (gen n) a.id]).filterMap CalendarEvent.alert_id = _
          rw [List.filterMap_append]
          simp [mkEvent_alert_id, taggedIds]
        rw [happ, List.append_assoc]
        rfl

/-- Deletes only remove events, so the tagged ids of the state after a
run of deletes form a sublist of those before. -/
theorem deletes_taggedIds_sublist (gen : Nat → RStr) :
    ∀ (ops : List CalOp), (∀ op ∈ ops, ∃ eid, op = CalOp.delete eid) →
    ∀ (p : List CalendarEvent × Nat),
      List.Sublist (taggedIds (applyOps gen p ops).1) (taggedIds p.1) := by
  intro ops
  induction ops with
  | nil => intro _ p; exact List.Sublist.refl _
  | cons op rest ih =>
    intro hall p
    obtain ⟨st, n⟩ := p
    obtain ⟨eid, rfl⟩ := hall op (List.mem_cons_self op rest)
    have hstep : applyOps gen (st, n) (CalOp.delete eid :: rest) =
        applyOps gen (st.filter (fun e => ¬e.id = eid), n) rest := rfl
    rw [hstep]
    refine List.Sublist.trans
      (ih (fun op hop => hall op (List.mem_cons_of_mem _ hop)) _) ?_
    exact (List.filter_sublist st).filterMap CalendarEvent.alert_id

/-- C2 (amended): no pass creates an event for an alert id that already
has a tagged remote event; and from a well-formed state — tagged alert
ids pairwise distinct (at most one tagged event per alert id), distinct
remote event ids, distinct live alert ids, server-assigned create ids
fresh — the state after a full pass again has at most one tagged event
per alert id.  (The unamended claim also asserted that a *duplicated*
starting state is repaired, which `duplicate_alert_id_counterexample`
refutes.) -/
theorem sync_preserves_unique_ids (gen : Nat → RStr) (alerts : List Alert)
    (existing : List CalendarEvent)
    (h1 : (taggedIds existing).Nodup)
    (h2 : (existing.map CalendarEvent.id).Nodup)
    (h3 : (alerts.map Alert.id).Nodup)
    (h4 : ∀ k, gen k ∉ existing.map CalendarEvent.id) :
    (∀ a, CalOp.create a ∈ sync_alerts alerts existing →
      ∀ e ∈ existing, e.alert_id ≠ some a.id) ∧
    (taggedIds (applyOps gen (existing, 0) (sync_alerts alerts existing)).1).Nodup := by
  have hA : ∀ aid eid, lookupAssoc (buildMap existing) aid = some eid →
      ∃ e ∈ existing, e.alert_id = some aid ∧ e.id = eid := by
    intro aid eid hl
    rcases buildMapGo_lookup_some existing [] aid eid hl with h' | h'
    · simp [lookupAssoc] at h'
    · exact h'
  have hcons : ∀ aid eid, lookupAssoc (buildMap existing) aid = some eid →
      ∀ e ∈ existing, e.id = eid → e.alert_id = some aid := by
    intro aid eid hl e he hid
    obtain ⟨e', he', ha', hi'⟩ := hA aid eid hl
    have : e = e' := List.inj_on_of_nodup_map h2 he he' (hid.trans hi'.symm)
    rw [this]
    exact ha'
  have hinj : ∀ aid aid' eid, lookupAssoc (buildMap existing) aid = some eid →
      lookupAssoc (buildMap existing) aid' = some eid → aid = aid' := by
    intro aid aid' eid hl hl'
    obtain ⟨e1, he1, ha1, hi1⟩ := hA aid eid hl
    obtain ⟨e2, he2, ha2, hi2⟩ := hA aid' eid hl'
    have he12 : e1 = e2 := List.inj_on_of_nodup_map h2 he1 he2 (hi1.trans hi2.symm)
    rw [he12] at ha1
    have := ha1.symm.trans ha2
    injection this
  have hfresh : ∀ k aid, lookupAssoc (buildMap existing) aid ≠ some (gen k) := by
    intro k aid hl
    obtain ⟨e, he, _, hi⟩ := hA aid (gen k) hl
    exact h4 k (hi ▸ List.mem_map_of_mem CalendarEvent.id he)
  have hdel : ∀ op ∈ (buildMap existing).filterMap (fun p =>
      if p.1 ∈ seenIds alerts then none else some (CalOp.delete p.2)),
      ∃ eid, op = CalOp.delete eid := by
    intro op hop
    obtain ⟨p, _, _, hop'⟩ := (mem_deletePhase alerts (buildMap existing) op).mp hop
    exact ⟨p.2, hop'⟩
  constructor
  · intro a hmem e he ha
    rw [sync_alerts_def] at hmem
    rcases List.mem_append.mp hmem with h' | h'
    · have hlk := (create_mem_loopOps (buildMap existing) alerts a h').2.2
      obtain ⟨_, hall⟩ := buildMapGo_lookup_none existing [] a.id hlk
      exact hall e he ha
    · obtain ⟨p, _, _, hop⟩ := (mem_deletePhase alerts (buildMap existing) _).mp h'
      exact CalOp.noConfusion hop
  · have hloop := loop_taggedIds gen (buildMap existing) alerts existing 0 hcons hinj hfresh
    have hcNodup : (createdIds (buildMap existing) alerts).Nodup := by
      refine List.Nodup.sublist ?_ h3
      apply filterMap_sublist_map
      intro a
      by_cases hskip : skipEffect a.attributes.effect
      · left
        simp [hskip]
      · cases hlk : lookupAssoc (buildMap existing) a.id with
        | some _ =>
          left
          simp [Bool.eq_false_iff.mpr hskip, hlk]
        | none =>
          right
          simp [Bool.eq_false_iff.mpr hskip, hlk]
    have hdisj : List.Disjoint (taggedIds existing) (createdIds (buildMap existing) alerts) := by
      intro aid hmem hc
      obtain ⟨e, he, ha⟩ := List.mem_filterMap.mp hmem
      have hs : (lookupAssoc (buildMap existing) aid).isSome :=
        buildMapGo_lookup_isSome existing [] aid (Or.inr ⟨e, he, ha⟩)
      obtain ⟨a, _, hfa⟩ := List.mem_filterMap.mp hc
      by_cases hskip : skipEffect a.attributes.effect
      · rw [if_pos hskip] at hfa
        exact Option.noConfusion hfa
      · rw [if_neg hskip] at hfa
        cases hlk : lookupAssoc (buildMap existing) a.id with
        | some _ =>
          rw [hlk] at hfa
          exact Option.noConfusion hfa
        | none =>
          rw [hlk] at hfa
          injection hfa with hfa'
          rw [← hfa'] at hs
          rw [hlk] at hs
          simp at hs
    have hN : (taggedIds (applyOps gen (existing, 0)
        (loopOps (buildMap existing) alerts)).1).Nodup := by
      rw [hloop, List.nodup_append]
      exact ⟨h1, hcNodup, hdisj⟩
    rw [sync_alerts_def]
    have heq : applyOps gen (existing, 0)
        (loopOps (buildMap existing) alerts ++
          (buildMap existing).filterMap (fun p =>
            if p.1 ∈ seenIds alerts then none else some (CalOp.delete p.2))) =
        applyOps gen (applyOps gen (existing, 0) (loopOps (buildMap existing) alerts))
          ((buildMap existing).filterMap (fun p =>
            if p.1 ∈ seenIds alerts then none else some (CalOp.delete p.2))) := by
      show (loopOps (buildMap existing) alerts ++ _).foldl (applyOp gen) (existing, 0) = _
      rw [List.foldl_append]
      rfl
    rw [heq]
    exact hN.sublist (deletes_taggedIds_sublist gen _ hdel _)

/-- Witness for `sync_preserves_unique_ids`: concrete well-formed
inputs (one tagged event, one live alert, fresh generator ids). -/
theorem sync_preserves_unique_ids_witness :
    (∀ a, CalOp.create a ∈ sync_alerts [alertA, alertS] [taggedEventS] →
      ∀ e ∈ [taggedEventS], e.alert_id ≠ some a.id) ∧
    (taggedIds (applyOps genW ([taggedEventS], 0)
      (sync_alerts [alertA, alertS] [taggedEventS])).1).Nodup := by
  refine sync_preserves_unique_ids genW [alertA, alertS] [taggedEventS]
    (by decide) (by decide) (by decide) ?_
  intro k
  simp only [List.map, List.mem_singleton]
  intro hk
  have hhead : (genW k).head? = some 'g' := rfl
  rw [hk] at hhead
  exact absurd hhead (by decide)
